import Mathlib

/-!
# Verification of the Mython interpreter (lexer and runtime)

A shallow embedding of the Mython interpreter's lexer
(`src/mython/lexer.cpp` plus the `lexer.h` part of the sources) and of its
runtime / AST evaluation (`runtime.h`, `runtime.cpp`, `statement.cpp`),
with theorems settling the frozen claims about the specification.

Conventions of the embedding:
* C++ `std::istream` is modelled by `parse.IStr`: a list of pending
  characters plus the `eofbit` / `failbit` flags, with `peekC` / `getC` /
  `putbackC` reproducing the iostream semantics the lexer relies on
  (a failed `get` sets both bits, `putback` first clears `eofbit` and is a
  no-op on a failed stream, a `peek` with `eofbit` set fails the stream).
* Reading loops of the C++ code (`while (istr.get(ch)) ...`) are modelled
  as structural recursions or `takeWhile` / `dropWhile` over the pending
  characters together with the flag outcome the loop leaves behind.
* The outer `while (istr)` loop of `ParseInputStream` is modelled with
  explicit fuel; running out of fuel is distinguished from both success
  and a thrown `LexerError`.
* C++ exceptions become `Except` errors; `int` values are modelled as
  unbounded `Int` (with the `std::stoi` range check kept explicit).
-/

namespace parse

/-- The token model of `lexer.h` (`parse::token_type` and `parse::Token`):
one constructor per alternative of the `TokenBase` variant. -/
inductive Token where
  | number (value : Int)
  | id (value : String)
  | charTok (value : Char)
  | strTok (value : String)
  | classKw
  | returnKw
  | ifKw
  | elseKw
  | defKw
  | newline
  | printKw
  | indent
  | dedent
  | andKw
  | orKw
  | notKw
  | eq
  | notEq
  | lessOrEq
  | greaterOrEq
  | noneKw
  | trueKw
  | falseKw
  | eof
deriving DecidableEq, Repr

/-- Errors thrown while lexing: `parse::LexerError`, the `std::logic_error`
of an unknown escape sequence, and the `std::out_of_range` of `std::stoi`.
All abort the lexer, so they are collapsed into one message-carrying
error. -/
inductive LexErr where
  | lex (msg : String)
deriving DecidableEq, Repr

/-- The state of a `std::istream` as the lexer observes it: the pending
characters and the `eofbit` / `failbit` flags. -/
structure IStr where
  data : List Char
  eofbit : Bool
  failbit : Bool
deriving DecidableEq, Repr

/-- `istream::peek()`: on a failed stream it returns EOF (modelled as
`none`); with `eofbit` set the sentry fails the stream; at the end of the
data it sets `eofbit`; otherwise it returns the next character without
consuming it. -/
def peekC (s : IStr) : Option Char × IStr :=
  if s.failbit then (none, s)
  else if s.eofbit then (none, { s with failbit := true })
  else
    match s.data with
    | [] => (none, { s with eofbit := true })
    | c :: _ => (some c, s)

/-- `istream::get(char&)`: fails immediately (setting `failbit`) if a flag
is set; at the end of the data sets `eofbit` and `failbit`; otherwise
consumes and returns the next character. -/
def getC (s : IStr) : Option Char × IStr :=
  if s.failbit || s.eofbit then (none, { s with failbit := true })
  else
    match s.data with
    | [] => (none, { s with eofbit := true, failbit := true })
    | c :: rest => (some c, { s with data := rest })

/-- `istream::putback(c)`: first clears `eofbit`; on a failed stream the
sentry fails and nothing happens; otherwise the character is pushed back
onto the stream. -/
def putbackC (c : Char) (s : IStr) : IStr :=
  if s.failbit then { s with eofbit := false }
  else { s with eofbit := false, data := c :: s.data }

/-- The running state of `Lexer::ParseInputStream`: the emitted tokens,
the `global_indent_counter_`, and the input stream. -/
structure LexState where
  tokens : List Token
  c : Int
  istr : IStr
deriving DecidableEq, Repr

/-- `std::ispunct` over the ASCII range (the "C" locale): the four
punctuation blocks of the ASCII table. -/
def isPunct (ch : Char) : Bool :=
  let n := ch.toNat
  (33 ≤ n && n ≤ 47) || (58 ≤ n && n ≤ 64) || (91 ≤ n && n ≤ 96) ||
    (123 ≤ n && n ≤ 126)

/-- First character of an identifier or keyword: `std::isalpha(ch) || ch == '_'`. -/
def isWordStart (ch : Char) : Bool :=
  ch.isAlpha || ch = '_'

/-- Subsequent identifier characters: `std::isalnum(ch) || ch == '_'`. -/
def isWordChar (ch : Char) : Bool :=
  ch.isAlphanum || ch = '_'

/-- The `keywords_map_` of `Lexer`: the twelve keywords; any other word
becomes an `Id` token. -/
def keywordLookup (w : String) : Token :=
  if w = "class" then .classKw
  else if w = "return" then .returnKw
  else if w = "if" then .ifKw
  else if w = "else" then .elseKw
  else if w = "def" then .defKw
  else if w = "print" then .printKw
  else if w = "and" then .andKw
  else if w = "or" then .orKw
  else if w = "not" then .notKw
  else if w = "None" then .noneKw
  else if w = "True" then .trueKw
  else if w = "False" then .falseKw
  else .id w

/-- The recognised escape sequences of `Lexer::ParseString`. -/
def escMap (e : Char) : Option Char :=
  if e = 'n' then some '\n'
  else if e = 't' then some '\t'
  else if e = 'r' then some '\r'
  else if e = '"' then some '"'
  else if e = '\'' then some '\''
  else if e = '\\' then some '\\'
  else none

/-- The body of the string-literal loop of `Lexer::ParseString`: read
until the matching quote `q`, translating escapes; a backslash at the end
of the stream, an unknown escape, a raw newline or carriage return, and an
unterminated literal are all fatal.  (If the stream ends with no character
ever read the C++ compares against an uninitialised `char`, which is
undefined behaviour; the model makes it the same `LexerError` as any other
unterminated literal.) -/
def lexStringBody (q : Char) : List Char → String → Except LexErr (String × List Char)
  | [], _ =>
    .error (.lex "ParseString() has exited without find end-of-string character")
  | ch :: rest, acc =>
    if ch = q then .ok (acc, rest)
    else if ch = '\\' then
      match rest with
      | [] =>
        .error (.lex "ParseString() has encountered unexpected end of stream after a backslash")
      | e :: rest2 =>
        match escMap e with
        | some c => lexStringBody q rest2 (acc.push c)
        | none => .error (.lex "ParseString() has encountered unknown escape sequence")
    else if ch = '\n' ∨ ch = '\r' then
      .error (.lex "ParseString() has encountered NL or CR symbol within a string")
    else lexStringBody q rest (acc.push ch)

/-- `Lexer::ParseString`: after the early EOF check, read one character;
a quote starts a string literal, anything else is put back. -/
def ParseString (st : LexState) : Except LexErr LexState :=
  let (pc, i1) := peekC st.istr
  match pc with
  | none => .ok { st with istr := i1 }
  | some _ =>
    let (oc?, i2) := getC i1
    match oc? with
    | none => .ok { st with istr := i2 }
    | some oc =>
      if oc = '\'' ∨ oc = '"' then
        match lexStringBody oc i2.data "" with
        | .error e => .error e
        | .ok (sv, rest) =>
          .ok { st with tokens := st.tokens ++ [.strTok sv],
                        istr := { i2 with data := rest } }
      else .ok { st with istr := putbackC oc i2 }

/-- `Lexer::ParseKeywords`: a word `[A-Za-z_][A-Za-z0-9_]*` becomes a
keyword token or an `Id`.  The reading loop is modelled by
`takeWhile` / `dropWhile`; if the loop ran to the end of the data the last
`get` failed and left `eofbit` and `failbit` set, otherwise the breaking
character was put back (net effect: it stays in the stream). -/
def ParseKeywords (st : LexState) : Except LexErr LexState :=
  let (pc, i1) := peekC st.istr
  match pc with
  | none => .ok { st with istr := i1 }
  | some ch =>
    if isWordStart ch then
      let word := i1.data.takeWhile isWordChar
      let rest := i1.data.dropWhile isWordChar
      let i2 : IStr :=
        if rest.isEmpty then { i1 with data := [], eofbit := true, failbit := true }
        else { i1 with data := rest }
      .ok { st with tokens := st.tokens ++ [keywordLookup (String.mk word)],
                    istr := i2 }
    else .ok { st with istr := i1 }

/-- `Lexer::ParseComments` (reached from `ParseChars` with the `#` put
back): `std::getline` consumes through the next newline; if the newline
was found the stream is good and the newline is put back, otherwise the
stream ends with only `eofbit` set (at least the `#` was extracted, so
`failbit` stays clear). -/
def ParseComments (st : LexState) : LexState :=
  let (pc, i1) := peekC st.istr
  if pc = some '#' then
    let before := i1.data.takeWhile (fun ch => ch ≠ '\n')
    let after := i1.data.drop before.length
    match after with
    | [] => { st with istr := { i1 with data := [], eofbit := true } }
    | _ :: r => { st with istr := { i1 with data := '\n' :: r } }
  else { st with istr := i1 }

/-- `Lexer::ParseChars`: punctuation handling; `#` defers to the comment
routine, the two-character operators `==` `!=` `>=` `<=` are checked via a
`peek` of the second character, everything else punctuational becomes a
`Char` token, and a non-punctuation character is put back. -/
def ParseChars (st : LexState) : Except LexErr LexState :=
  let (pc, i1) := peekC st.istr
  match pc with
  | none => .ok { st with istr := i1 }
  | some _ =>
    let (c?, i2) := getC i1
    match c? with
    | none => .ok { st with istr := i2 }
    | some ch =>
      if isPunct ch then
        if ch = '#' then
          .ok (ParseComments { st with istr := putbackC ch i2 })
        else if ch = '=' then
          let (p2, i3) := peekC i2
          if p2 = some '=' then
            let (_, i4) := getC i3
            .ok { st with tokens := st.tokens ++ [.eq], istr := i4 }
          else .ok { st with tokens := st.tokens ++ [.charTok ch], istr := i3 }
        else if ch = '!' then
          let (p2, i3) := peekC i2
          if p2 = some '=' then
            let (_, i4) := getC i3
            .ok { st with tokens := st.tokens ++ [.notEq], istr := i4 }
          else .ok { st with tokens := st.tokens ++ [.charTok ch], istr := i3 }
        else if ch = '>' then
          let (p2, i3) := peekC i2
          if p2 = some '=' then
            let (_, i4) := getC i3
            .ok { st with tokens := st.tokens ++ [.greaterOrEq], istr := i4 }
          else .ok { st with tokens := st.tokens ++ [.charTok ch], istr := i3 }
        else if ch = '<' then
          let (p2, i3) := peekC i2
          if p2 = some '=' then
            let (_, i4) := getC i3
            .ok { st with tokens := st.tokens ++ [.lessOrEq], istr := i4 }
          else .ok { st with tokens := st.tokens ++ [.charTok ch], istr := i3 }
        else
          .ok { st with tokens := st.tokens ++ [.charTok ch], istr := i2 }
      else .ok { st with istr := putbackC ch i2 }

/-- Decimal value of a digit string, as read by `std::stoi`. -/
def digitsToNat (ds : List Char) : Nat :=
  ds.foldl (fun a ch => a * 10 + (ch.toNat - 48)) 0

/-- `Lexer::ParseNumbers`: a digit run becomes a `Number` token via
`std::stoi`; a value beyond `INT_MAX` makes `std::stoi` throw
`std::out_of_range`, which aborts the lexer. -/
def ParseNumbers (st : LexState) : Except LexErr LexState :=
  let (pc, i1) := peekC st.istr
  match pc with
  | none => .ok { st with istr := i1 }
  | some ch =>
    if ch.isDigit then
      let ds := i1.data.takeWhile Char.isDigit
      let rest := i1.data.dropWhile Char.isDigit
      let i2 : IStr :=
        if rest.isEmpty then { i1 with data := [], eofbit := true, failbit := true }
        else { i1 with data := rest }
      let v := digitsToNat ds
      if v ≤ 2147483647 then
        .ok { st with tokens := st.tokens ++ [.number (v : Int)], istr := i2 }
      else .error (.lex "stoi out of range")
    else .ok { st with istr := i1 }

/-- The emission count of the indent / dedent loops of
`Lexer::ParseIndent`: `while (spaces > 0) { spaces -= 2; emit; }` emits
one token per two (or a final one) remaining spaces. -/
def stepCount : Nat → Nat
  | 0 => 0
  | 1 => 1
  | k + 2 => stepCount k + 1

/-- The indent / dedent branches of `Lexer::ParseIndent` after the spaces
have been counted, followed by the negative-counter invariant check (the
C++ checks `global_indent_counter_ < 0` after the branches and throws). -/
def indentEmit (st : LexState) (sp : Nat) (i2 : IStr) : Except LexErr LexState :=
  let st' : LexState :=
    if st.c * 2 < (sp : Int) then
      let t := stepCount ((sp : Int) - st.c * 2).toNat
      { tokens := st.tokens ++ List.replicate t .indent, c := st.c + t, istr := i2 }
    else if (sp : Int) < st.c * 2 then
      let t := stepCount (st.c * 2 - (sp : Int)).toNat
      { tokens := st.tokens ++ List.replicate t .dedent, c := st.c - t, istr := i2 }
    else { st with istr := i2 }
  if st'.c < 0 then
    .error (.lex "ParseIndent() produced negative global indent")
  else .ok st'

/-- `Lexer::ParseIndent`: after the early EOF check, count the leading
spaces.  If the reading loop stopped at a character it is put back, and a
newline means a blank line (no tokens, no counter change); if the loop ran
to the end of the data the failed `get` left `eofbit` and `failbit` set
and the attempted `putback` is a no-op that clears `eofbit`. -/
def ParseIndent (st : LexState) : Except LexErr LexState :=
  let (pc, i1) := peekC st.istr
  match pc with
  | none => .ok { st with istr := i1 }
  | some _ =>
    let sp := (i1.data.takeWhile (fun ch => ch = ' ')).length
    let rest := i1.data.drop sp
    match rest with
    | [] =>
      indentEmit st sp { i1 with data := [], eofbit := false, failbit := true }
    | ch :: _ =>
      let i2 : IStr := { i1 with data := rest }
      if ch = '\n' then .ok { st with istr := i2 }
      else indentEmit st sp i2

/-- `Lexer::ParseNewLine`: a newline character emits a `Newline` token
unless the previous token already is one, then runs the indent routine. -/
def ParseNewLine (st : LexState) : Except LexErr LexState :=
  let (pc, i1) := peekC st.istr
  if pc = some '\n' then
    let (_, i2) := getC i1
    let toks :=
      if st.tokens ≠ [] ∧ st.tokens.getLast? ≠ some Token.newline then
        st.tokens ++ [Token.newline]
      else st.tokens
    ParseIndent { tokens := toks, c := st.c, istr := i2 }
  else .ok { st with istr := i1 }

/-- `Lexer::TrimSpaces`: `while (istr.peek() == ' ') istr.get();` — on a
failed stream nothing happens; with `eofbit` set the `peek` fails the
stream; otherwise leading spaces are dropped, and if that exhausts the
data the final `peek` sets `eofbit`. -/
def TrimSpaces (s : IStr) : IStr :=
  if s.failbit then s
  else if s.eofbit then { s with failbit := true }
  else
    let d := s.data.dropWhile (fun ch => ch = ' ')
    if d.isEmpty then { s with data := [], eofbit := true }
    else { s with data := d }

/-- One iteration of the main loop of `Lexer::ParseInputStream`. -/
def lexIter (st : LexState) : Except LexErr LexState := do
  let st1 ← ParseString st
  let st2 ← ParseKeywords st1
  let st3 ← ParseChars st2
  let st4 ← ParseNumbers st3
  let st5 : LexState := { st4 with istr := TrimSpaces st4.istr }
  ParseNewLine st5

/-- The `while (istr)` loop of `Lexer::ParseInputStream`, with fuel:
`none` means the fuel ran out before the stream failed. -/
def lexLoop : Nat → LexState → Except LexErr (Option LexState)
  | 0, _ => .ok none
  | n + 1, st =>
    if st.istr.failbit then .ok (some st)
    else do
      let st' ← lexIter st
      lexLoop n st'

/-- The end-of-input finalisation of `Lexer::ParseInputStream`: append a
`Newline` if the tokens are non-empty and do not already end in one, drain
the remaining indents as `Dedent`s, then append `Eof`. -/
def finalize (st : LexState) : List Token :=
  let t1 :=
    if st.tokens ≠ [] ∧ st.tokens.getLast? ≠ some Token.newline then
      st.tokens ++ [Token.newline]
    else st.tokens
  t1 ++ List.replicate st.c.toNat Token.dedent ++ [Token.eof]

/-- `Lexer::ParseInputStream` end to end: reset the counters, trim the
leading spaces, run the main loop (with fuel), then finalise.
`.ok none` means the fuel ran out. -/
def ParseInputStream (fuel : Nat) (input : List Char) : Except LexErr (Option (List Token)) := do
  let st0 : LexState :=
    { tokens := [], c := 0,
      istr := TrimSpaces { data := input, eofbit := false, failbit := false } }
  match ← lexLoop fuel st0 with
  | none => .ok none
  | some st => .ok (some (finalize st))

end parse

namespace runtime

/-- The method record of `runtime.h` (`struct Method`): name, formal
parameter names, body.  The body is an AST statement (`ast.Stmt`), declared
below; to break the cycle the statement type is a parameter here and the
concrete `Method` / `Class` are fixed after `Stmt`. -/
structure MethodT (S : Type) where
  name : String
  formalParams : List String
  body : S
deriving Repr

/-- `runtime::Class`: name, own methods, optional parent.  The virtual
function table `vftable_` is not stored but recomputed by `vftable` below
(it is a pure function of these three fields, built once by the C++
constructor). -/
inductive ClassT (S : Type) where
  | mk (name : String) (methods : List (MethodT S)) (parent : Option (ClassT S))
deriving Repr

end runtime

namespace ast

/-- The executable AST statements of `statement.cpp` that the claims
touch.  `newInstance` carries the address (`instAddr`) under which the
`ClassInstance class_instance_` member of the C++ `NewInstance` node is
stored in the heap of the evaluation state: `ObjectHolder::Share` of that
member is modelled as a borrowing holder of that address.  Child
statements are modelled as always present (the parser never produces null
children; the C++ null-checks throw and are irrelevant to the claims),
except `ret` whose C++ constructor can legitimately receive a null
statement for a bare `return`. -/
inductive Stmt where
  | numConst (value : Int)
  | strConst (value : String)
  | boolConst (value : Bool)
  | noneConst
  | varValue (dottedIds : List String)
  | assign (var : String) (rhs : Stmt)
  | fieldAssign (objectIds : List String) (fieldName : String) (rhs : Stmt)
  | andOp (lhs rhs : Stmt)
  | orOp (lhs rhs : Stmt)
  | notOp (arg : Stmt)
  | div (lhs rhs : Stmt)
  | methodCall (object : Stmt) (method : String) (args : List Stmt)
  | newInstance (instAddr : Nat) (args : List Stmt)
  | compound (stmts : List Stmt)
  | ret (statement : Option Stmt)
  | methodBody (body : Stmt)
deriving Repr

end ast

namespace runtime

/-- `runtime::Method` with its body fixed to the AST statement type. -/
abbrev Method := MethodT ast.Stmt

/-- `runtime::Class` with method bodies fixed to the AST statement type. -/
abbrev Class := ClassT ast.Stmt

/-- Projection: the class name (`Class::GetName`). -/
def Class.GetName : Class → String
  | .mk n _ _ => n

/-- Projection: the class's own methods (`methods_`). -/
def Class.methods : Class → List Method
  | .mk _ ms _ => ms

/-- Projection: the parent class (`parent_`). -/
def Class.parent : Class → Option Class
  | .mk _ _ p => p

/-- One `vftable_[m.name] = &m;` assignment of the `Class` constructor:
pointwise overwrite of the name-to-method mapping. -/
def vfInsert (tbl : String → Option Method) (m : Method) : String → Option Method :=
  fun n => if n = m.name then some m else tbl n

/-- The virtual function table built by the `runtime::Class` constructor:
seeded with the parent's *own* methods (`parent_->methods_`, not the
parent's composed table), then overwritten by the class's own methods. -/
def Class.vftable (c : Class) : String → Option Method :=
  let base : String → Option Method :=
    match c.parent with
    | none => fun _ => none
    | some p => p.methods.foldl vfInsert (fun _ => none)
  c.methods.foldl vfInsert base

/-- `Class::GetMethod`: look the name up in the virtual function table. -/
def Class.GetMethod (c : Class) (name : String) : Option Method :=
  c.vftable name

/-- The dynamic values of the value model (`runtime::Object` variants).
A class instance is represented by its heap address; its state (class and
fields) lives in the evaluation state's heap. -/
inductive Value where
  | vnum (n : Int)
  | vstr (s : String)
  | vbool (b : Bool)
  | vclass (c : Class)
  | vinst (addr : Nat)
deriving Repr

/-- `runtime::ObjectHolder`: empty (None), owning (`Own`), or borrowing
(`Share`). -/
inductive ObjectHolder where
  | empty
  | owned (v : Value)
  | borrowed (v : Value)
deriving Repr

/-- `ObjectHolder::Get` up to the dynamic value: the object pointed to,
if any (ownership does not affect which object is observed). -/
def ObjectHolder.val : ObjectHolder → Option Value
  | .empty => none
  | .owned v => some v
  | .borrowed v => some v

/-- `TryAs<Number>` on a holder. -/
def ObjectHolder.asNum (h : ObjectHolder) : Option Int :=
  match h.val with
  | some (.vnum n) => some n
  | _ => none

/-- `TryAs<String>` on a holder. -/
def ObjectHolder.asStr (h : ObjectHolder) : Option String :=
  match h.val with
  | some (.vstr s) => some s
  | _ => none

/-- `TryAs<Bool>` on a holder. -/
def ObjectHolder.asBool (h : ObjectHolder) : Option Bool :=
  match h.val with
  | some (.vbool b) => some b
  | _ => none

/-- `TryAs<ClassInstance>` on a holder: the instance's heap address. -/
def ObjectHolder.asInst (h : ObjectHolder) : Option Nat :=
  match h.val with
  | some (.vinst a) => some a
  | _ => none

/-- A `runtime::Closure`: name-to-holder bindings.  The C++
`std::unordered_map` is order-irrelevant with last-write-wins; it is
modelled as an association list with in-place update. -/
abbrev Closure := List (String × ObjectHolder)

/-- Map lookup (`closure.find` / `closure.at`). -/
def cget (cl : Closure) (name : String) : Option ObjectHolder :=
  match cl.find? (fun p => p.1 = name) with
  | some p => some p.2
  | none => none

/-- Map insert-or-update (`closure[name] = v`). -/
def cset : Closure → String → ObjectHolder → Closure
  | [], name, v => [(name, v)]
  | (k, w) :: rest, name, v =>
    if k = name then (name, v) :: rest else (k, w) :: cset rest name v

/-- `runtime::ClassInstance`: the class it instantiates and its field
table. -/
structure ClassInstance where
  cls : Class
  fields : Closure
deriving Repr

/-- The mutable world of an evaluation: the instances (addressed
`ClassInstance` objects; in C++ these live wherever a `ClassInstance`
object was constructed, e.g. inside a `NewInstance` AST node) and the
output accumulated through the `Context`'s output stream. -/
structure State where
  heap : List (Nat × ClassInstance)
  output : String
deriving Repr

/-- Heap lookup. -/
def heapGet (h : List (Nat × ClassInstance)) (addr : Nat) : Option ClassInstance :=
  match h.find? (fun p => p.1 = addr) with
  | some p => some p.2
  | none => none

/-- Write one field of the instance at `addr`
(`instance.Fields()[name] = v`); `none` if the address is dangling
(impossible in the C++, where the reference is always valid). -/
def heapSetField (h : List (Nat × ClassInstance)) (addr : Nat) (name : String)
    (v : ObjectHolder) : Option (List (Nat × ClassInstance)) :=
  match h with
  | [] => none
  | (a, inst) :: rest =>
    if a = addr then some ((a, { inst with fields := cset inst.fields name v }) :: rest)
    else
      match heapSetField rest addr name v with
      | some rest' => some ((a, inst) :: rest')
      | none => none

/-- `runtime::IsTrue`: an empty holder is false; a non-zero `Number`, a
`true` `Bool` and a non-empty `String` are true; everything else
(class values, instances) is false. -/
def IsTrue (object : ObjectHolder) : Bool :=
  match object.val with
  | none => false
  | some (.vnum n) => n ≠ 0
  | some (.vbool b) => b
  | some (.vstr s) => s.length ≠ 0
  | some _ => false

/-- `ClassInstance::HasMethod` as a predicate of the class: the virtual
table has the method and its formal parameter count matches. -/
def Class.HasMethod (c : Class) (method : String) (argumentCount : Nat) : Bool :=
  match c.GetMethod method with
  | some m => m.formalParams.length = argumentCount
  | none => false

/-- The outcomes of C++ exceptions during evaluation:
`rt` is a fatal `std::runtime_error`, `ret` is the `ast::ReturnException`
control-flow signal (carrying the returned holder and the world at the
throw point — heap and output survive unwinding in C++), and `fuel` marks
exhaustion of the step budget of the model (no C++ counterpart: the C++
simply fails to terminate). -/
inductive Err where
  | rt (msg : String)
  | ret (v : ObjectHolder) (s : State)
  | fuel
deriving Repr

end runtime

namespace ast

open runtime

/-- Result of executing one statement: the produced holder, the (possibly
rebound) closure the statement was executed against, and the world. -/
abbrev Res := Except Err (ObjectHolder × Closure × State)

/-- `ast::VariableValue::Execute`: walk the dotted chain of identifiers.
Each name is looked up in the current closure (a missing name is fatal);
if the found value is a class instance the next lookup happens in its
field table, otherwise (a quirk of the source) the current closure is kept
unchanged.  The walk neither mutates the closure nor the heap.  An empty
chain is fatal.  A dangling instance address cannot arise in the C++
(references are always valid) and is mapped to a fatal error. -/
def execVarValue (dottedIds : List String) (cl : Closure)
    (heap : List (Nat × ClassInstance)) : Except Err ObjectHolder :=
  match dottedIds with
  | [] => .error (.rt "No arguments specified for VariableValue::Execute()")
  | _ => go dottedIds cl .empty
where
  go : List String → Closure → ObjectHolder → Except Err ObjectHolder
    | [], _, result => .ok result
    | arg :: rest, cur, _ =>
      match cget cur arg with
      | none => .error (.rt "Invalid argument name in VariableValue::Execute()")
      | some v =>
        match v.asInst with
        | some addr =>
          match heapGet heap addr with
          | some inst => go rest inst.fields v
          | none => .error (.rt "dangling instance address")
        | none => go rest cur v

/-- Left-to-right evaluation of an argument list, threading closure and
state (the `for` loops filling `args_values` in `MethodCall::Execute` and
`NewInstance::Execute`). -/
def evalArgs (ev : Stmt → Closure → State → Res) :
    List Stmt → Closure → State → Except Err (List ObjectHolder × Closure × State)
  | [], cl, s => .ok ([], cl, s)
  | a :: rest, cl, s => do
    let (v, cl1, s1) ← ev a cl s
    let (vs, cl2, s2) ← evalArgs ev rest cl1 s1
    .ok (v :: vs, cl2, s2)

/-- `ast::Compound::Execute`: execute the statements in order, discarding
their results, and return None. -/
def execSeq (ev : Stmt → Closure → State → Res) :
    List Stmt → Closure → State → Res
  | [], cl, s => .ok (.empty, cl, s)
  | st :: rest, cl, s => do
    let (_, cl1, s1) ← ev st cl s
    execSeq ev rest cl1 s1

/-- Bind the formal parameters to the actual arguments
(`closure[formal_params[i]] = actual_args[i]`). -/
def bindParams (cl : Closure) : List String → List ObjectHolder → Closure
  | [], _ => cl
  | _, [] => cl
  | p :: ps, a :: as_ => bindParams (cset cl p a) ps as_

/-- `runtime::ClassInstance::Call`: if the class's virtual table has the
method with matching arity, build a fresh closure binding `self` to a
borrowing holder of the instance plus the formal parameters, and execute
the body; otherwise throw.  The callee's closure is local and discarded,
so only the result holder and the world are returned. -/
def callMethod (ev : Stmt → Closure → State → Res) (addr : Nat) (method : String)
    (actualArgs : List ObjectHolder) (s : State) : Except Err (ObjectHolder × State) :=
  match heapGet s.heap addr with
  | none => .error (.rt "dangling instance address")
  | some inst =>
    if inst.cls.HasMethod method actualArgs.length then
      match inst.cls.GetMethod method with
      | none => .error (.rt "dangling instance address")
      | some m => do
        let cl0 : Closure := [("self", .borrowed (.vinst addr))]
        let cl1 := bindParams cl0 m.formalParams actualArgs
        let (r, _, s') ← ev m.body cl1 s
        .ok (r, s')
    else .error (.rt "Call for a not defined method")

/-- The `Execute(closure, context)` of every modelled statement of
`statement.cpp`, step-indexed by fuel (a method call may recurse
arbitrarily; running out of fuel gives `Err.fuel`, with no C++
counterpart).

Faithfulness notes, per case, against `statement.cpp`:
* `assign`: evaluates the right side, binds the variable, returns the
  bound holder.
* `fieldAssign`: evaluates the `VariableValue`; an empty holder returns
  None with nothing evaluated or written; a non-instance object makes the
  C++ dereference a null `TryAs` result (undefined behaviour), modelled as
  a fatal error; otherwise the right side is evaluated and stored.
* `andOp`: evaluates BOTH operands, then combines truthiness (the source
  does not short-circuit `And`).
* `orOp`: short-circuits on a truthy left operand.
* `div`: two numbers with a non-zero divisor give the truncated quotient
  (`Int.tdiv` is C++ signed integer division); a zero divisor and any
  non-number operand are fatal.
* `methodCall`: a non-instance (or empty) object yields None without
  evaluating the arguments; otherwise the arguments are evaluated
  left-to-right and the method dispatched.
* `newInstance`: the node's embedded instance is at `instAddr`; if its
  class has a matching `__init__` the arguments are evaluated and it is
  called; the result is always `ObjectHolder::Share(class_instance_)`,
  a borrowing holder of `instAddr`.
* `ret`: evaluates its statement (None if absent) and throws the
  `ReturnException` signal.
* `methodBody`: catches the signal and returns its value; on normal
  completion returns None.  (The C++ catch resumes with the same closure
  object including the body's mutations; the model resumes with the
  incoming closure — indistinguishable in this repository, where a
  `methodBody` only ever runs under `Call`, which discards the closure.) -/
def exec : Nat → Stmt → Closure → State → Res
  | 0, _, _, _ => .error .fuel
  | n + 1, stmt, cl, s =>
    match stmt with
    | .numConst k => .ok (.owned (.vnum k), cl, s)
    | .strConst t => .ok (.owned (.vstr t), cl, s)
    | .boolConst b => .ok (.owned (.vbool b), cl, s)
    | .noneConst => .ok (.empty, cl, s)
    | .varValue ids =>
      match execVarValue ids cl s.heap with
      | .ok v => .ok (v, cl, s)
      | .error e => .error e
    | .assign var rhs => do
      let (v, cl1, s1) ← exec n rhs cl s
      .ok (v, cset cl1 var v, s1)
    | .fieldAssign ids fieldName rhs =>
      match execVarValue ids cl s.heap with
      | .error e => .error e
      | .ok obj =>
        match obj with
        | .empty => .ok (.empty, cl, s)
        | _ =>
          match obj.asInst with
          | none => .error (.rt "UB: FieldAssignment target is not a ClassInstance")
          | some addr => do
            let (v, cl1, s1) ← exec n rhs cl s
            match heapSetField s1.heap addr fieldName v with
            | none => .error (.rt "dangling instance address")
            | some h2 => .ok (v, cl1, { s1 with heap := h2 })
    | .andOp lhs rhs => do
      let (lv, cl1, s1) ← exec n lhs cl s
      let (rv, cl2, s2) ← exec n rhs cl1 s1
      .ok (.owned (.vbool (IsTrue lv && IsTrue rv)), cl2, s2)
    | .orOp lhs rhs => do
      let (lv, cl1, s1) ← exec n lhs cl s
      if IsTrue lv then .ok (.owned (.vbool true), cl1, s1)
      else do
        let (rv, cl2, s2) ← exec n rhs cl1 s1
        .ok (.owned (.vbool (IsTrue rv)), cl2, s2)
    | .notOp arg => do
      let (v, cl1, s1) ← exec n arg cl s
      .ok (.owned (.vbool (!(IsTrue v))), cl1, s1)
    | .div lhs rhs => do
      let (lv, cl1, s1) ← exec n lhs cl s
      let (rv, cl2, s2) ← exec n rhs cl1 s1
      match lv.asNum, rv.asNum with
      | some a, some b =>
        if b = 0 then .error (.rt "Division by zero in Div::Execute()")
        else .ok (.owned (.vnum (a.tdiv b)), cl2, s2)
      | _, _ => .error (.rt "Incompatible argument(s) type(s) for Div::Execute()")
    | .methodCall object method args => do
      let (ov, cl1, s1) ← exec n object cl s
      match ov.asInst with
      | some addr => do
        let (vs, cl2, s2) ← evalArgs (exec n) args cl1 s1
        let (r, s3) ← callMethod (exec n) addr method vs s2
        .ok (r, cl2, s3)
      | none => .ok (.empty, cl1, s1)
    | .newInstance instAddr args =>
      match heapGet s.heap instAddr with
      | none => .error (.rt "dangling instance address")
      | some inst =>
        if inst.cls.HasMethod "__init__" args.length then do
          let (vs, cl1, s1) ← evalArgs (exec n) args cl s
          let (_, s2) ← callMethod (exec n) instAddr "__init__" vs s1
          .ok (.borrowed (.vinst instAddr), cl1, s2)
        else .ok (.borrowed (.vinst instAddr), cl, s)
    | .compound stmts => execSeq (exec n) stmts cl s
    | .ret none => .error (.ret .empty s)
    | .ret (some e) =>
      match exec n e cl s with
      | .ok (v, _, s1) => .error (.ret v s1)
      | .error err => .error err
    | .methodBody body =>
      match exec n body cl s with
      | .ok (_, cl1, s1) => .ok (.empty, cl1, s1)
      | .error (.ret v s1) => .ok (v, cl, s1)
      | .error e => .error e

end ast

namespace runtime

/-- `runtime::Equal` (`runtime.cpp`): two empty holders are equal; two
numbers, two strings or two bools compare by value; a class-instance left
side with an `__eq__` of arity 1 dispatches (a non-`Bool` result makes
the C++ dereference a null `TryAs`, undefined behaviour, modelled as a
fatal error); everything else throws.  Dispatch may run user code, so the
world threads through.  `fuel` bounds the dispatched call. -/
def Equal (fuel : Nat) (lhs rhs : ObjectHolder) (s : State) : Except Err (Bool × State) :=
  match lhs, rhs with
  | .empty, .empty => .ok (true, s)
  | _, _ =>
    match lhs.asNum, rhs.asNum with
    | some a, some b => .ok (a = b, s)
    | _, _ =>
      match lhs.asStr, rhs.asStr with
      | some a, some b => .ok (a = b, s)
      | _, _ =>
        match lhs.asBool, rhs.asBool with
        | some a, some b => .ok (a = b, s)
        | _, _ =>
          match lhs.asInst with
          | some addr =>
            match heapGet s.heap addr with
            | none => .error (.rt "dangling instance address")
            | some inst =>
              if inst.cls.HasMethod "__eq__" 1 then do
                let (r, s') ← ast.callMethod (ast.exec fuel) addr "__eq__" [rhs] s
                match r.asBool with
                | some b => .ok (b, s')
                | none => .error (.rt "UB: __eq__ result is not a Bool")
              else .error (.rt "Cannot compare objects for equality")
          | none => .error (.rt "Cannot compare objects for equality")

/-- `runtime::Less`: numbers, strings and bools compare with `<`
(lexicographic for strings, `false < true` for bools); a class-instance
left side with `__lt__` of arity 1 dispatches; everything else throws. -/
def Less (fuel : Nat) (lhs rhs : ObjectHolder) (s : State) : Except Err (Bool × State) :=
  match lhs.asNum, rhs.asNum with
  | some a, some b => .ok (a < b, s)
  | _, _ =>
    match lhs.asStr, rhs.asStr with
    | some a, some b => .ok (a < b, s)
    | _, _ =>
      match lhs.asBool, rhs.asBool with
      | some a, some b => .ok (a < b, s)
      | _, _ =>
        match lhs.asInst with
        | some addr =>
          match heapGet s.heap addr with
          | none => .error (.rt "dangling instance address")
          | some inst =>
            if inst.cls.HasMethod "__lt__" 1 then do
              let (r, s') ← ast.callMethod (ast.exec fuel) addr "__lt__" [rhs] s
              match r.asBool with
              | some b => .ok (b, s')
              | none => .error (.rt "UB: __lt__ result is not a Bool")
            else .error (.rt "Cannot compare objects for less")
        | none => .error (.rt "Cannot compare objects for less")

/-- `runtime::NotEqual`: `!Equal(lhs, rhs, context)`. -/
def NotEqual (fuel : Nat) (lhs rhs : ObjectHolder) (s : State) : Except Err (Bool × State) := do
  let (b, s1) ← Equal fuel lhs rhs s
  .ok (!b, s1)

/-- `runtime::Greater`: `!(Less(lhs, rhs) || Equal(lhs, rhs))`, with the
C++ `||` short-circuit (a true `Less` skips the `Equal` call). -/
def Greater (fuel : Nat) (lhs rhs : ObjectHolder) (s : State) : Except Err (Bool × State) := do
  let (a, s1) ← Less fuel lhs rhs s
  if a then .ok (false, s1)
  else do
    let (b, s2) ← Equal fuel lhs rhs s1
    .ok (!b, s2)

/-- `runtime::LessOrEqual`: `Less(lhs, rhs) || Equal(lhs, rhs)`, with the
C++ `||` short-circuit. -/
def LessOrEqual (fuel : Nat) (lhs rhs : ObjectHolder) (s : State) : Except Err (Bool × State) := do
  let (a, s1) ← Less fuel lhs rhs s
  if a then .ok (true, s1)
  else do
    let (b, s2) ← Equal fuel lhs rhs s1
    .ok (b, s2)

/-- `runtime::GreaterOrEqual`: `!Less(lhs, rhs, context)`. -/
def GreaterOrEqual (fuel : Nat) (lhs rhs : ObjectHolder) (s : State) : Except Err (Bool × State) := do
  let (a, s1) ← Less fuel lhs rhs s
  .ok (!a, s1)

end runtime


/-! ## Supporting definitions for the claim theorems -/

namespace parse

/-- The indent tokens the amended claim C2 predicts: on a non-blank line
with `sp` leading spaces and depth `c`, the lexer emits `⌈(sp − 2c)/2⌉`
`Indent`s if `sp > 2c` and `⌈(2c − sp)/2⌉` `Dedent`s if `sp < 2c`
(for `sp` a multiple of two these are the claim's `n − c` and `c − n`
with `n = sp / 2`). -/
def amendedIndentTokens (c sp : Nat) : List Token :=
  if 2 * c < sp then List.replicate ((sp - 2 * c + 1) / 2) Token.indent
  else if sp < 2 * c then List.replicate ((2 * c - sp + 1) / 2) Token.dedent
  else []

/-- The indent depth the amended claim C2 predicts after the line. -/
def amendedDepth (c sp : Nat) : Nat :=
  if 2 * c < sp then c + (sp - 2 * c + 1) / 2
  else if sp < 2 * c then c - (2 * c - sp + 1) / 2
  else c

/-- The emission the original claim C2 predicts, modelled from the
claim's words: `n = s / 2` (integer division); `n − c` `Indent`s if
`n > c`, `c − n` `Dedent`s if `n < c`, nothing if `n = c`. -/
def specIndentEmission (c : Int) (s : Nat) : List Token :=
  let n : Int := (s : Int) / 2
  if c < n then List.replicate (n - c).toNat Token.indent
  else if n < c then List.replicate (c - n).toNat Token.dedent
  else []

/-- The indent balance of a token list: `Indent` count minus `Dedent`
count, as an integer. -/
def balance (l : List Token) : Int :=
  (l.count Token.indent : Int) - (l.count Token.dedent : Int)

/-- The loop invariant of `ParseInputStream`: the indent counter equals
the indent balance of the emitted tokens, is non-negative, and no `Eof`
token has been emitted. -/
def Good (st : LexState) : Prop :=
  st.c = balance st.tokens ∧ 0 ≤ st.c ∧ Token.eof ∉ st.tokens

end parse

/-- The empty evaluation world used by concrete witnesses. -/
def emptyState : runtime.State := { heap := [], output := "" }

/-- A one-class world for the `NewInstance` witness: a class with no
methods, whose node-embedded instance lives at address 0. -/
def plainClassState : runtime.State :=
  { heap := [(0, { cls := .mk "Plain" [] none, fields := [] })], output := "" }

/-! ## The virtual function table (claim C6) -/

namespace runtime

/-- Folding `vfInsert` over a method list looks up the *last* method of
that name in the list, falling back to the seed table. -/
theorem foldl_vfInsert_apply (l : List Method) (base : String → Option Method)
    (name : String) :
    (l.foldl vfInsert base) name =
      ((l.reverse.find? (fun m => m.name = name)).or (base name)) := by
  induction l generalizing base with
  | nil => simp
  | cons m ms ih =>
    simp only [List.foldl_cons, ih, List.reverse_cons, List.find?_append]
    cases hfind : ms.reverse.find? (fun m => m.name = name) with
    | some m' => simp [Option.or]
    | none =>
      simp only [Option.or, vfInsert, List.find?_cons, List.find?_nil]
      by_cases hn : m.name = name
      · subst hn; simp
      · simp [hn, Ne.symm hn]

end runtime

/-- **C6.** When a class is constructed with a parent, its virtual table
is exactly the parent's *own* methods overwritten by the child's own
methods: `GetMethod name` is the child's last declaration of `name` if
any, otherwise the parent's own last declaration of `name`, otherwise
none — so a method declared only by a grandparent (and not re-declared by
the parent) is not found. -/
theorem C6_vtable_parent_own_overridden (nm : String) (ms : List runtime.Method)
    (p : runtime.Class) (name : String) :
    runtime.Class.GetMethod (runtime.ClassT.mk nm ms (some p)) name =
      ((ms.reverse.find? (fun m => m.name = name)).or
        (p.methods.reverse.find? (fun m => m.name = name))) := by
  show runtime.Class.vftable (runtime.ClassT.mk nm ms (some p)) name = _
  unfold runtime.Class.vftable
  simp only [runtime.Class.parent, runtime.Class.methods, runtime.foldl_vfInsert_apply]
  cases ms.reverse.find? (fun m => m.name = name) <;> simp

/-! ## Claims about statement execution -/

/-- **C1 (counterexample).** The claim says a non-truthy left operand of
`And` prevents evaluation of the right operand.  In the source
`And::Execute` evaluates both operands unconditionally: here the left
operand is `False`, yet executing the `And` performs the right operand's
assignment, observably binding `x` in the closure (which started empty). -/
theorem C1_and_rhs_effect_counterexample :
    ast.exec 3 (.andOp (.boolConst false) (.assign "x" (.numConst 1))) [] emptyState =
      .ok (.owned (.vbool false), [("x", .owned (.vnum 1))], emptyState) ∧
    runtime.IsTrue (.owned (.vbool false)) = false ∧
    runtime.cget [("x", .owned (.vnum 1))] "x" = some (.owned (.vnum 1)) ∧
    runtime.cget ([] : runtime.Closure) "x" = none :=
  ⟨rfl, rfl, rfl, rfl⟩

/-- **C1 (amended).** `And` evaluates BOTH operands unconditionally
(left then right, side effects of the right operand always occur), and
then returns a freshly owned `Bool` holding the conjunction of the two
truthiness values.  (`Or`, by contrast, short-circuits in the source;
`And` does not.) -/
theorem C1_and_evaluates_both_operands (n : Nat) (l r : ast.Stmt)
    (cl cl1 cl2 : runtime.Closure) (s s1 s2 : runtime.State)
    (lv rv : runtime.ObjectHolder)
    (hl : ast.exec n l cl s = .ok (lv, cl1, s1))
    (hr : ast.exec n r cl1 s1 = .ok (rv, cl2, s2)) :
    ast.exec (n + 1) (.andOp l r) cl s =
      .ok (.owned (.vbool (runtime.IsTrue lv && runtime.IsTrue rv)), cl2, s2) := by
  simp [ast.exec, hl, hr, Bind.bind, Except.bind]

/-- **C1 (witness).** The amended theorem at a concrete input: both
operands are boolean constants, the result is the owned conjunction. -/
theorem C1_and_evaluates_both_operands_witness :
    ast.exec 2 (.andOp (.boolConst true) (.boolConst false)) [] emptyState =
      .ok (.owned (.vbool (runtime.IsTrue (.owned (.vbool true)) &&
        runtime.IsTrue (.owned (.vbool false)))), [], emptyState) :=
  C1_and_evaluates_both_operands 1 _ _ _ _ _ _ _ _ _ _ rfl rfl

/-- Any successful evaluation of a `NewInstance` node yields the borrowing
holder of the node's embedded instance (the `ObjectHolder::Share` of its
`class_instance_` field), whatever the fuel, closure and state. -/
theorem exec_newInstance_holder (n : Nat) (addr : Nat) (args : List ast.Stmt)
    (cl cl' : runtime.Closure) (s s' : runtime.State) (h : runtime.ObjectHolder)
    (he : ast.exec n (.newInstance addr args) cl s = .ok (h, cl', s')) :
    h = .borrowed (.vinst addr) := by
  cases n with
  | zero => simp [ast.exec] at he
  | succ m =>
    simp only [ast.exec] at he
    rcases hg : runtime.heapGet s.heap addr with _ | inst <;> rw [hg] at he
    · simp at he
    · simp only at he
      split at he
      · rcases hargs : ast.evalArgs (ast.exec m) args cl s with e | ⟨vs, cla, sa⟩ <;>
          rw [hargs] at he <;> simp only [Bind.bind, Except.bind] at he
        · exact absurd he (by simp)
        · rcases hc : ast.callMethod (ast.exec m) addr "__init__" vs sa with e | ⟨r, sb⟩ <;>
            rw [hc] at he <;> simp only [Bind.bind, Except.bind] at he
          · exact absurd he (by simp)
          · simp only [Except.ok.injEq, Prod.mk.injEq] at he
            exact he.1.symm
      · simp only [Except.ok.injEq, Prod.mk.injEq] at he
        exact he.1.symm

/-- **C3.** Every evaluation of the same `NewInstance` node returns a
borrowing (non-owning) holder over the single instance stored as a field
of that AST node (`class_instance_`, modelled by its heap address): two
evaluations of the same node — under any fuels, closures and states —
yield holders whose `Get()` is the same `ClassInstance` object, so they
alias each other's mutations. -/
theorem C3_newInstance_borrows_node_instance (n1 n2 addr : Nat) (args : List ast.Stmt)
    (cl1 cl2 cl1' cl2' : runtime.Closure) (s1 s2 s1' s2' : runtime.State)
    (h1 h2 : runtime.ObjectHolder)
    (e1 : ast.exec n1 (.newInstance addr args) cl1 s1 = .ok (h1, cl1', s1'))
    (e2 : ast.exec n2 (.newInstance addr args) cl2 s2 = .ok (h2, cl2', s2')) :
    h1 = .borrowed (.vinst addr) ∧ h2 = .borrowed (.vinst addr) ∧ h1.val = h2.val := by
  have q1 := exec_newInstance_holder n1 addr args cl1 cl1' s1 s1' h1 e1
  have q2 := exec_newInstance_holder n2 addr args cl2 cl2' s2 s2' h2 e2
  exact ⟨q1, q2, by rw [q1, q2]⟩

/-- **C3 (witness).** Two concrete evaluations of the same `NewInstance`
node (different fuels and closures) both return the borrowing holder of
the node's single embedded instance. -/
theorem C3_newInstance_borrows_node_instance_witness :
    (.borrowed (.vinst 0) : runtime.ObjectHolder) = .borrowed (.vinst 0) ∧
    (.borrowed (.vinst 0) : runtime.ObjectHolder) = .borrowed (.vinst 0) ∧
    (runtime.ObjectHolder.borrowed (.vinst 0)).val =
      (runtime.ObjectHolder.borrowed (.vinst 0)).val :=
  C3_newInstance_borrows_node_instance 1 2 0 [] [] [("y", .empty)] [] [("y", .empty)]
    plainClassState plainClassState plainClassState plainClassState _ _ rfl rfl

/-- **C4 (counterexample).** The claim asserts reflexivity of `Equal`
over the *whole* value model, including `Class` values.  A `Class` value
is neither a number, string, bool, nor a class instance, so
`runtime::Equal` falls through every case and throws: `Equal(x, x)`
raises for `x` a class value. -/
theorem C4_equal_not_reflexive_counterexample :
    runtime.Equal 1 (.owned (.vclass (.mk "Plain" [] none)))
      (.owned (.vclass (.mk "Plain" [] none))) emptyState =
      .error (.rt "Cannot compare objects for equality") := rfl

/-- **C4 (amended).** `Equal(x, x, context)` returns `true` without
raising for every `x` that is the empty (None) holder, a `Number`, a
`String` or a `Bool`; for a `Class` value (and for an instance without a
suitable `__eq__`) it raises instead. -/
theorem C4_equal_reflexive_on_builtins (fuel : Nat) (x : runtime.ObjectHolder)
    (s : runtime.State)
    (h : x = .empty ∨ (∃ n, x.asNum = some n) ∨ (∃ t, x.asStr = some t) ∨
      (∃ b, x.asBool = some b)) :
    runtime.Equal fuel x x s = .ok (true, s) := by
  match x with
  | .empty => rfl
  | .owned (.vnum n) => simp [runtime.Equal, runtime.ObjectHolder.asNum,
      runtime.ObjectHolder.val]
  | .borrowed (.vnum n) => simp [runtime.Equal, runtime.ObjectHolder.asNum,
      runtime.ObjectHolder.val]
  | .owned (.vstr t) => simp [runtime.Equal, runtime.ObjectHolder.asNum,
      runtime.ObjectHolder.asStr, runtime.ObjectHolder.val]
  | .borrowed (.vstr t) => simp [runtime.Equal, runtime.ObjectHolder.asNum,
      runtime.ObjectHolder.asStr, runtime.ObjectHolder.val]
  | .owned (.vbool b) => simp [runtime.Equal, runtime.ObjectHolder.asNum,
      runtime.ObjectHolder.asStr, runtime.ObjectHolder.asBool, runtime.ObjectHolder.val]
  | .borrowed (.vbool b) => simp [runtime.Equal, runtime.ObjectHolder.asNum,
      runtime.ObjectHolder.asStr, runtime.ObjectHolder.asBool, runtime.ObjectHolder.val]
  | .owned (.vclass c) => rcases h with h | ⟨n, h⟩ | ⟨t, h⟩ | ⟨b, h⟩ <;> simp_all
      [runtime.ObjectHolder.asNum, runtime.ObjectHolder.asStr,
       runtime.ObjectHolder.asBool, runtime.ObjectHolder.val]
  | .borrowed (.vclass c) => rcases h with h | ⟨n, h⟩ | ⟨t, h⟩ | ⟨b, h⟩ <;> simp_all
      [runtime.ObjectHolder.asNum, runtime.ObjectHolder.asStr,
       runtime.ObjectHolder.asBool, runtime.ObjectHolder.val]
  | .owned (.vinst a) => rcases h with h | ⟨n, h⟩ | ⟨t, h⟩ | ⟨b, h⟩ <;> simp_all
      [runtime.ObjectHolder.asNum, runtime.ObjectHolder.asStr,
       runtime.ObjectHolder.asBool, runtime.ObjectHolder.val]
  | .borrowed (.vinst a) => rcases h with h | ⟨n, h⟩ | ⟨t, h⟩ | ⟨b, h⟩ <;> simp_all
      [runtime.ObjectHolder.asNum, runtime.ObjectHolder.asStr,
       runtime.ObjectHolder.asBool, runtime.ObjectHolder.val]

/-- **C4 (witness).** The amended theorem at a concrete number. -/
theorem C4_equal_reflexive_on_builtins_witness :
    runtime.Equal 0 (.owned (.vnum 3)) (.owned (.vnum 3)) emptyState =
      .ok (true, emptyState) :=
  C4_equal_reflexive_on_builtins 0 _ _ (Or.inr (Or.inl ⟨3, rfl⟩))

/-- **C7.** Given that both operands of `Div` evaluate (in order, left
then right), the execution of the `Div` raises a fatal runtime error
exactly when the two results are not both `Number`s or the divisor is
zero; in every other case it returns a freshly owned `Number` holding the
quotient truncated toward zero (`Int.tdiv`, the C++ signed `/`). -/
theorem C7_div_raises_iff (n : Nat) (l r : ast.Stmt)
    (cl cl1 cl2 : runtime.Closure) (s s1 s2 : runtime.State)
    (lv rv : runtime.ObjectHolder)
    (hl : ast.exec n l cl s = .ok (lv, cl1, s1))
    (hr : ast.exec n r cl1 s1 = .ok (rv, cl2, s2)) :
    ((∃ msg, ast.exec (n + 1) (.div l r) cl s = .error (.rt msg)) ↔
      (lv.asNum = none ∨ rv.asNum = none ∨ rv.asNum = some 0)) ∧
    (∀ a b, lv.asNum = some a → rv.asNum = some b → b ≠ 0 →
      ast.exec (n + 1) (.div l r) cl s = .ok (.owned (.vnum (a.tdiv b)), cl2, s2)) := by
  have hd : ast.exec (n + 1) (.div l r) cl s =
      match lv.asNum, rv.asNum with
      | some a, some b =>
        if b = 0 then .error (.rt "Division by zero in Div::Execute()")
        else .ok (.owned (.vnum (a.tdiv b)), cl2, s2)
      | _, _ => .error (.rt "Incompatible argument(s) type(s) for Div::Execute()") := by
    simp [ast.exec, hl, hr, Bind.bind, Except.bind]
  constructor
  · rw [hd]
    rcases ha : lv.asNum with _ | a <;> rcases hb : rv.asNum with _ | b <;> simp
    by_cases hz : b = 0
    · subst hz; simp
    · simp [hz]
  · intro a b ha hb hz
    rw [hd, ha, hb]
    simp [hz]

/-- **C7 (witness).** The theorem at a concrete input: `-7 / 2`
truncates toward zero, giving `-3`. -/
theorem C7_div_raises_iff_witness :
    ast.exec 2 (.div (.numConst (-7)) (.numConst 2)) [] emptyState =
      .ok (.owned (.vnum ((-7 : Int).tdiv 2)), [], emptyState) :=
  (C7_div_raises_iff 1 (.numConst (-7)) (.numConst 2) [] [] [] emptyState emptyState
    emptyState (.owned (.vnum (-7))) (.owned (.vnum 2)) rfl rfl).2 (-7) 2 rfl rfl
    (by decide)

/-- **C8.** If the object expression of a `MethodCall` evaluates to an
empty holder (None) or to a value that is not a `ClassInstance`
(`TryAs<ClassInstance>` yields null in both cases), the `MethodCall`
returns an empty (None) holder — no runtime error is raised and the
argument expressions are never evaluated. -/
theorem C8_methodCall_non_instance_returns_none (n : Nat) (obj : ast.Stmt)
    (method : String) (args : List ast.Stmt) (cl cl1 : runtime.Closure)
    (s s1 : runtime.State) (ov : runtime.ObjectHolder)
    (ho : ast.exec n obj cl s = .ok (ov, cl1, s1))
    (hni : ov.asInst = none) :
    ast.exec (n + 1) (.methodCall obj method args) cl s = .ok (.empty, cl1, s1) := by
  simp [ast.exec, ho, hni, Bind.bind, Except.bind]

/-- **C8 (witness).** A method call on the `None` constant returns None. -/
theorem C8_methodCall_non_instance_returns_none_witness :
    ast.exec 2 (.methodCall .noneConst "f" [.numConst 1]) [] emptyState =
      .ok (.empty, [], emptyState) :=
  C8_methodCall_non_instance_returns_none 1 _ _ _ _ _ _ _ _ rfl rfl

/-- **C10.** If the object expression (a `VariableValue` chain) of a
`FieldAssignment` evaluates to an empty holder, the `FieldAssignment`
returns None and the right-hand side is never evaluated: the statement
holds for EVERY `rhs`, and the resulting closure and world (instance
field tables and output) are exactly the incoming ones.  (The object
walk itself, `VariableValue::Execute`, only reads.) -/
theorem C10_fieldAssignment_none_object_no_effect (n : Nat) (ids : List String)
    (fieldName : String) (rhs : ast.Stmt) (cl : runtime.Closure) (s : runtime.State)
    (h : ast.execVarValue ids cl s.heap = .ok .empty) :
    ast.exec (n + 1) (.fieldAssign ids fieldName rhs) cl s = .ok (.empty, cl, s) := by
  simp [ast.exec, h]

/-- **C10 (witness).** Assigning through a variable bound to None:
the right-hand side (an assignment with a visible side effect) is not
executed and nothing changes. -/
theorem C10_fieldAssignment_none_object_no_effect_witness :
    ast.exec 1 (.fieldAssign ["x"] "f" (.assign "y" (.numConst 7)))
      [("x", .empty)] emptyState = .ok (.empty, [("x", .empty)], emptyState) :=
  C10_fieldAssignment_none_object_no_effect 0 _ _ _ _ _ rfl

/-- **C9.** For holders on which `Less` and `Equal` are defined (they
return a value rather than raising — including `Equal` still returning
the same value when run after `Less`, which is automatic for every
built-in comparison, where no user code runs): `NotEqual = ¬Equal`,
`GreaterOrEqual = ¬Less`, `LessOrEqual = Less ∨ Equal` and
`Greater = ¬(Less ∨ Equal)`, with the C++ `||` short-circuit (a true
`Less` suppresses the `Equal` call, hence the `if` on the final state). -/
theorem C9_comparison_composites (fuel : Nat) (x y : runtime.ObjectHolder)
    (s s1 s2 sE : runtime.State) (a b : Bool)
    (hL : runtime.Less fuel x y s = .ok (a, s1))
    (hE : runtime.Equal fuel x y s = .ok (b, sE))
    (hE1 : runtime.Equal fuel x y s1 = .ok (b, s2)) :
    runtime.NotEqual fuel x y s = .ok (!b, sE) ∧
    runtime.GreaterOrEqual fuel x y s = .ok (!a, s1) ∧
    runtime.LessOrEqual fuel x y s = .ok (a || b, if a then s1 else s2) ∧
    runtime.Greater fuel x y s = .ok (!(a || b), if a then s1 else s2) := by
  refine ⟨?_, ?_, ?_, ?_⟩
  · simp [runtime.NotEqual, hE, Bind.bind, Except.bind]
  · simp [runtime.GreaterOrEqual, hL, Bind.bind, Except.bind]
  · cases a <;> simp [runtime.LessOrEqual, hL, hE1, Bind.bind, Except.bind]
  · cases a <;> simp [runtime.Greater, hL, hE1, Bind.bind, Except.bind]

/-- **C9 (witness).** The theorem at two concrete numbers (`1` and `2`):
`Less` is true and `Equal` is false, so `NotEqual` is true,
`GreaterOrEqual` is false, `LessOrEqual` is true and `Greater` is
false. -/
theorem C9_comparison_composites_witness :
    runtime.NotEqual 0 (.owned (.vnum 1)) (.owned (.vnum 2)) emptyState =
      .ok (!false, emptyState) ∧
    runtime.GreaterOrEqual 0 (.owned (.vnum 1)) (.owned (.vnum 2)) emptyState =
      .ok (!true, emptyState) ∧
    runtime.LessOrEqual 0 (.owned (.vnum 1)) (.owned (.vnum 2)) emptyState =
      .ok (true || false, if true then emptyState else emptyState) ∧
    runtime.Greater 0 (.owned (.vnum 1)) (.owned (.vnum 2)) emptyState =
      .ok (!(true || false), if true then emptyState else emptyState) :=
  C9_comparison_composites 0 (.owned (.vnum 1)) (.owned (.vnum 2)) emptyState
    emptyState emptyState emptyState true false rfl rfl rfl

/-! ## Claims about the lexer's indent handling -/

namespace parse

/-- The loop `while (spaces > 0) { spaces -= 2; emit; }` runs
`⌈spaces / 2⌉` times. -/
theorem stepCount_eq (k : Nat) : stepCount k = (k + 1) / 2 := by
  induction k using Nat.strong_induction_on with
  | _ k ih =>
    match k with
    | 0 => rfl
    | 1 => rfl
    | k + 2 =>
      rw [stepCount, ih k (by omega)]
      omega

/-- Counting the leading spaces of a line that continues with a
non-space character. -/
theorem takeWhile_spaces (sp : Nat) (ch : Char) (h : ch ≠ ' ') (rest : List Char) :
    (List.replicate sp ' ' ++ ch :: rest).takeWhile (fun c => c = ' ') =
      List.replicate sp ' ' := by
  induction sp with
  | zero => simp [List.takeWhile_cons, h]
  | succ n ih => simp [List.replicate_succ, List.takeWhile_cons, ih]

/-- Dropping the leading spaces of such a line. -/
theorem drop_spaces (sp : Nat) (ch : Char) (rest : List Char) :
    (List.replicate sp ' ' ++ ch :: rest).drop sp = ch :: rest := by
  induction sp with
  | zero => simp
  | succ n ih => simp [List.replicate_succ, ih]

/-- `ParseIndent` on a good, non-exhausted stream: count the spaces, then
dispatch on what follows them (end of data, a blank line's newline, or a
real line). -/
theorem ParseIndent_good (tokens : List Token) (c : Int) (c0 : Char) (cs : List Char) :
    ParseIndent ⟨tokens, c, ⟨c0 :: cs, false, false⟩⟩ =
      (let sp := ((c0 :: cs).takeWhile (fun ch => ch = ' ')).length
       let rest := (c0 :: cs).drop sp
       match rest with
       | [] => indentEmit ⟨tokens, c, ⟨c0 :: cs, false, false⟩⟩ sp ⟨[], false, true⟩
       | ch :: _ =>
         if ch = '\n' then .ok ⟨tokens, c, ⟨rest, false, false⟩⟩
         else indentEmit ⟨tokens, c, ⟨c0 :: cs, false, false⟩⟩ sp ⟨rest, false, false⟩) := by
  rfl

/-- **C2 (counterexample).** With depth `c = 0` and `s = 1` observed
leading space on a non-blank line (`" x"`), the claim predicts no tokens
(`n = 1 / 2 = 0 = c`), but `ParseIndent` emits one `Indent` and sets the
depth to 1: the claim's division-based rule fails for odd space counts. -/
theorem C2_parseIndent_counterexample :
    ParseIndent ⟨[], 0, ⟨[' ', 'x'], false, false⟩⟩ =
      .ok ⟨[Token.indent], 1, ⟨['x'], false, false⟩⟩ ∧
    specIndentEmission 0 1 = [] ∧
    ([Token.indent] : List Token) ≠ [] :=
  ⟨rfl, rfl, by decide⟩

/-- **C2 (amended).** After a newline, with current depth `c` and `s`
observed leading spaces on a non-blank line: if `s > 2c` the lexer emits
`⌈(s − 2c)/2⌉` `Indent` tokens and adds that count to the depth; if
`s < 2c` it emits `⌈(2c − s)/2⌉` `Dedent` tokens and subtracts that
count; if `s = 2c` it emits nothing.  For `s` a multiple of two this is
the claim's rule with `n = s / 2`; for odd `s` the indent branch emits
one more token than the claim predicts and triggers already at
`s = 2c + 1`. -/
theorem C2_parseIndent_nonblank (tokens : List Token) (cn sp : Nat) (ch : Char)
    (rest : List Char) (hch : ch ≠ ' ') (hnl : ch ≠ '\n') :
    ParseIndent ⟨tokens, (cn : Int), ⟨List.replicate sp ' ' ++ ch :: rest, false, false⟩⟩ =
      .ok ⟨tokens ++ amendedIndentTokens cn sp, (amendedDepth cn sp : Int),
        ⟨ch :: rest, false, false⟩⟩ := by
  obtain ⟨c0, cs, hd⟩ : ∃ c0 cs, List.replicate sp ' ' ++ ch :: rest = c0 :: cs := by
    cases sp <;> exact ⟨_, _, rfl⟩
  rw [hd, ParseIndent_good]
  simp only
  rw [← hd, takeWhile_spaces sp ch hch rest, List.length_replicate,
    drop_spaces sp ch rest]
  simp only [hnl, if_false, if_neg]
  unfold indentEmit amendedIndentTokens amendedDepth
  rcases lt_trichotomy (2 * cn) sp with hlt | heq | hgt
  · have hc : ((cn : Int) * 2 < (sp : Int)) := by omega
    have ht : (((sp : Int) - (cn : Int) * 2).toNat) = sp - 2 * cn := by omega
    rw [if_pos hc, ht, stepCount_eq]
    have hnonneg : ¬((cn : Int) + ((sp - 2 * cn + 1) / 2 : Nat) < 0) := by omega
    simp only [hnonneg, if_neg, if_pos hlt]
    have hcast : (cn : Int) + ((sp - 2 * cn + 1) / 2 : Nat) =
        ((cn + (sp - 2 * cn + 1) / 2 : Nat) : Int) := by omega
    rw [hcast]
    simp
  · have hc1 : ¬((cn : Int) * 2 < (sp : Int)) := by omega
    have hc2 : ¬((sp : Int) < (cn : Int) * 2) := by omega
    have hn1 : ¬(2 * cn < sp) := by omega
    have hn2 : ¬(sp < 2 * cn) := by omega
    simp only [hc1, hc2, hn1, hn2, if_neg, if_false]
    have hneg : ¬((cn : Int) < 0) := by omega
    simp [hneg]
  · have hc1 : ¬((cn : Int) * 2 < (sp : Int)) := by omega
    have hc2 : ((sp : Int) < (cn : Int) * 2) := by omega
    have hn1 : ¬(2 * cn < sp) := by omega
    have ht : (((cn : Int) * 2 - (sp : Int)).toNat) = 2 * cn - sp := by omega
    rw [if_neg hc1, if_pos hc2, ht, stepCount_eq]
    have hle : ((2 * cn - sp + 1) / 2 : Nat) ≤ cn := by omega
    have hnonneg : ¬((cn : Int) - ((2 * cn - sp + 1) / 2 : Nat) < 0) := by omega
    simp only [hnonneg, if_neg, hn1, if_false, if_pos hgt]
    have hcast : (cn : Int) - ((2 * cn - sp + 1) / 2 : Nat) =
        ((cn - (2 * cn - sp + 1) / 2 : Nat) : Int) := by omega
    rw [hcast]
    try simp

/-- **C2 (witness).** The amended theorem at depth 1 with five leading
spaces: `⌈(5 − 2)/2⌉ = 2` `Indent` tokens, new depth 3. -/
theorem C2_parseIndent_nonblank_witness :
    ParseIndent ⟨[], ((1 : Nat) : Int), ⟨List.replicate 5 ' ' ++ 'x' :: [], false, false⟩⟩ =
      .ok ⟨[] ++ amendedIndentTokens 1 5, (amendedDepth 1 5 : Int),
        ⟨'x' :: [], false, false⟩⟩ :=
  C2_parseIndent_nonblank [] 1 5 'x' [] (by decide) (by decide)

end parse

namespace parse

/-! ## The lexer's token invariants (claim C5) -/

theorem good_push (st : LexState) (t : Token) (i : IStr) (h : Good st)
    (h1 : t ≠ Token.indent) (h2 : t ≠ Token.dedent) (h3 : t ≠ Token.eof) :
    Good ⟨st.tokens ++ [t], st.c, i⟩ := by
  obtain ⟨hb, hn, he⟩ := h
  refine ⟨?_, hn, ?_⟩
  · simp only [balance, List.count_append] at hb ⊢
    have e1 : List.count Token.indent [t] = 0 := by
      simp [List.count_singleton', h1]
    have e2 : List.count Token.dedent [t] = 0 := by
      simp [List.count_singleton', h2]
    omega
  · simp [List.mem_append, he, Ne.symm h3]

theorem good_push_replicate_indent (st : LexState) (t : Nat) (i : IStr) (h : Good st) :
    Good ⟨st.tokens ++ List.replicate t Token.indent, st.c + t, i⟩ := by
  obtain ⟨hb, hn, he⟩ := h
  refine ⟨?_, ?_, ?_⟩
  · show st.c + (t : Int) = balance (st.tokens ++ List.replicate t Token.indent)
    simp only [balance, List.count_append, List.count_replicate] at hb ⊢
    simp only [beq_self_eq_true, if_pos]
    have : (Token.indent == Token.dedent) = false := by decide
    simp [this]
    omega
  · show (0 : Int) ≤ st.c + (t : Int)
    omega
  · show Token.eof ∉ st.tokens ++ List.replicate t Token.indent
    simp [List.mem_append, he, List.mem_replicate]

theorem good_push_replicate_dedent (st : LexState) (t : Nat) (i : IStr) (h : Good st)
    (hge : 0 ≤ st.c - t) :
    Good ⟨st.tokens ++ List.replicate t Token.dedent, st.c - t, i⟩ := by
  obtain ⟨hb, hn, he⟩ := h
  refine ⟨?_, hge, ?_⟩
  · show st.c - (t : Int) = balance (st.tokens ++ List.replicate t Token.dedent)
    simp only [balance, List.count_append, List.count_replicate] at hb ⊢
    simp only [beq_self_eq_true, if_pos]
    have : (Token.dedent == Token.indent) = false := by decide
    simp [this]
    omega
  · show Token.eof ∉ st.tokens ++ List.replicate t Token.dedent
    simp [List.mem_append, he, List.mem_replicate]

end parse

namespace parse

set_option maxHeartbeats 1000000 in
theorem keywordLookup_not_structural (w : String) :
    keywordLookup w ≠ Token.indent ∧ keywordLookup w ≠ Token.dedent ∧
      keywordLookup w ≠ Token.eof := by
  unfold keywordLookup
  repeat' split
  all_goals exact ⟨by simp, by simp, by simp⟩

theorem indentEmit_good (st : LexState) (sp : Nat) (i2 : IStr) (st' : LexState)
    (h : Good st) (he : indentEmit st sp i2 = .ok st') : Good st' := by
  simp only [indentEmit] at he
  by_cases h1 : st.c * 2 < (sp : Int)
  · rw [if_pos h1] at he
    split at he
    · exact absurd he (by simp)
    · injection he with he
      subst he
      exact good_push_replicate_indent st _ i2 h
  · rw [if_neg h1] at he
    by_cases h2 : (sp : Int) < st.c * 2
    · rw [if_pos h2] at he
      split at he
      · exact absurd he (by simp)
      · rename_i hguard
        injection he with he
        subst he
        have hg2 : ¬(st.c - ((stepCount (st.c * 2 - (sp : Int)).toNat : Nat) : Int) < 0) :=
          hguard
        exact good_push_replicate_dedent st _ i2 h (by omega)
    · rw [if_neg h2] at he
      split at he
      · exact absurd he (by simp)
      · injection he with he
        subst he
        exact ⟨h.1, h.2.1, h.2.2⟩

end parse

namespace parse

theorem ParseComments_good (st : LexState) (h : Good st) : Good (ParseComments st) := by
  unfold ParseComments
  rcases hp : peekC st.istr with ⟨pc, i1⟩
  simp only
  split
  · split
    · exact ⟨h.1, h.2.1, h.2.2⟩
    · exact ⟨h.1, h.2.1, h.2.2⟩
  · exact ⟨h.1, h.2.1, h.2.2⟩

theorem ParseString_good (st st' : LexState) (h : Good st)
    (he : ParseString st = .ok st') : Good st' := by
  unfold ParseString at he
  rcases hp : peekC st.istr with ⟨pc, i1⟩
  rw [hp] at he
  cases pc with
  | none =>
    simp only at he
    injection he with he
    subst he
    exact ⟨h.1, h.2.1, h.2.2⟩
  | some c0 =>
    simp only at he
    rcases hg : getC i1 with ⟨oc?, i2⟩
    rw [hg] at he
    cases oc? with
    | none =>
      simp only at he
      injection he with he
      subst he
      exact ⟨h.1, h.2.1, h.2.2⟩
    | some oc =>
      simp only at he
      split at he
      · rcases hb : lexStringBody oc i2.data "" with e | ⟨sv, rest⟩ <;> rw [hb] at he
        · exact absurd he (by simp)
        · simp only at he
          injection he with he
          subst he
          exact good_push st _ _ h (by simp) (by simp) (by simp)
      · injection he with he
        subst he
        exact ⟨h.1, h.2.1, h.2.2⟩

theorem ParseKeywords_good (st st' : LexState) (h : Good st)
    (he : ParseKeywords st = .ok st') : Good st' := by
  unfold ParseKeywords at he
  rcases hp : peekC st.istr with ⟨pc, i1⟩
  rw [hp] at he
  cases pc with
  | none =>
    simp only at he
    injection he with he
    subst he
    exact ⟨h.1, h.2.1, h.2.2⟩
  | some ch =>
    simp only at he
    split at he
    · injection he with he
      subst he
      obtain ⟨k1, k2, k3⟩ := keywordLookup_not_structural
        (String.mk (i1.data.takeWhile isWordChar))
      exact good_push st _ _ h k1 k2 k3
    · injection he with he
      subst he
      exact ⟨h.1, h.2.1, h.2.2⟩

theorem ParseNumbers_good (st st' : LexState) (h : Good st)
    (he : ParseNumbers st = .ok st') : Good st' := by
  unfold ParseNumbers at he
  rcases hp : peekC st.istr with ⟨pc, i1⟩
  rw [hp] at he
  cases pc with
  | none =>
    simp only at he
    injection he with he
    subst he
    exact ⟨h.1, h.2.1, h.2.2⟩
  | some ch =>
    simp only at he
    split at he
    · split at he
      · injection he with he
        subst he
        exact good_push st _ _ h (by simp) (by simp) (by simp)
      · exact absurd he (by simp)
    · injection he with he
      subst he
      exact ⟨h.1, h.2.1, h.2.2⟩

end parse

namespace parse

theorem ParseChars_good (st st' : LexState) (h : Good st)
    (he : ParseChars st = .ok st') : Good st' := by
  unfold ParseChars at he
  rcases hp : peekC st.istr with ⟨pc, i1⟩
  rw [hp] at he
  cases pc with
  | none =>
    simp only at he
    injection he with he
    subst he
    exact ⟨h.1, h.2.1, h.2.2⟩
  | some c0 =>
    simp only at he
    rcases hg : getC i1 with ⟨c?, i2⟩
    rw [hg] at he
    cases c? with
    | none =>
      simp only at he
      injection he with he
      subst he
      exact ⟨h.1, h.2.1, h.2.2⟩
    | some ch =>
      simp only at he
      split at he
      · split at he
        · injection he with he
          subst he
          exact ParseComments_good _ ⟨h.1, h.2.1, h.2.2⟩
        · split at he
          · split at he
            · injection he with he
              subst he
              exact good_push st _ _ h (by simp) (by simp) (by simp)
            · injection he with he
              subst he
              exact good_push st _ _ h (by simp) (by simp) (by simp)
          · split at he
            · split at he
              · injection he with he
                subst he
                exact good_push st _ _ h (by simp) (by simp) (by simp)
              · injection he with he
                subst he
                exact good_push st _ _ h (by simp) (by simp) (by simp)
            · split at he
              · split at he
                · injection he with he
                  subst he
                  exact good_push st _ _ h (by simp) (by simp) (by simp)
                · injection he with he
                  subst he
                  exact good_push st _ _ h (by simp) (by simp) (by simp)
              · split at he
                · split at he
                  · injection he with he
                    subst he
                    exact good_push st _ _ h (by simp) (by simp) (by simp)
                  · injection he with he
                    subst he
                    exact good_push st _ _ h (by simp) (by simp) (by simp)
                · injection he with he
                  subst he
                  exact good_push st _ _ h (by simp) (by simp) (by simp)
      · injection he with he
        subst he
        exact ⟨h.1, h.2.1, h.2.2⟩

theorem ParseIndent_good_inv (st st' : LexState) (h : Good st)
    (he : ParseIndent st = .ok st') : Good st' := by
  unfold ParseIndent at he
  rcases hp : peekC st.istr with ⟨pc, i1⟩
  rw [hp] at he
  cases pc with
  | none =>
    simp only at he
    injection he with he
    subst he
    exact ⟨h.1, h.2.1, h.2.2⟩
  | some c0 =>
    simp only at he
    split at he
    · exact indentEmit_good _ _ _ _ h he
    · split at he
      · injection he with he
        subst he
        exact ⟨h.1, h.2.1, h.2.2⟩
      · exact indentEmit_good _ _ _ _ h he

theorem ParseNewLine_good (st st' : LexState) (h : Good st)
    (he : ParseNewLine st = .ok st') : Good st' := by
  unfold ParseNewLine at he
  rcases hp : peekC st.istr with ⟨pc, i1⟩
  rw [hp] at he
  simp only at he
  split at he
  · rcases hg : getC i1 with ⟨c?, i2⟩
    rw [hg] at he
    simp only at he
    split at he
    · exact ParseIndent_good_inv _ _
        (good_push st Token.newline i2 h (by simp) (by simp) (by simp)) he
    · exact ParseIndent_good_inv { tokens := st.tokens, c := st.c, istr := i2 } st'
        ⟨h.1, h.2.1, h.2.2⟩ he
  · injection he with he
    subst he
    exact ⟨h.1, h.2.1, h.2.2⟩

theorem lexIter_good (st st' : LexState) (h : Good st)
    (he : lexIter st = .ok st') : Good st' := by
  unfold lexIter at he
  rcases h1 : ParseString st with e | st1 <;> rw [h1] at he <;>
    simp only [Bind.bind, Except.bind] at he
  · exact absurd he (by simp)
  rcases h2 : ParseKeywords st1 with e | st2 <;> rw [h2] at he <;>
    simp only [Bind.bind, Except.bind] at he
  · exact absurd he (by simp)
  rcases h3 : ParseChars st2 with e | st3 <;> rw [h3] at he <;>
    simp only [Bind.bind, Except.bind] at he
  · exact absurd he (by simp)
  rcases h4 : ParseNumbers st3 with e | st4 <;> rw [h4] at he <;>
    simp only [Bind.bind, Except.bind] at he
  · exact absurd he (by simp)
  have g1 := ParseString_good st st1 h h1
  have g2 := ParseKeywords_good st1 st2 g1 h2
  have g3 := ParseChars_good st2 st3 g2 h3
  have g4 := ParseNumbers_good st3 st4 g3 h4
  exact ParseNewLine_good { st4 with istr := TrimSpaces st4.istr } st'
    ⟨g4.1, g4.2.1, g4.2.2⟩ he

theorem lexLoop_good (fuel : Nat) (st st' : LexState) (h : Good st)
    (he : lexLoop fuel st = .ok (some st')) : Good st' := by
  induction fuel generalizing st with
  | zero => simp [lexLoop] at he
  | succ n ih =>
    rw [lexLoop] at he
    split at he
    · injection he with he
      injection he with he
      subst he
      exact h
    · rcases hi : lexIter st with e | st1 <;> rw [hi] at he <;>
        simp only [Bind.bind, Except.bind] at he
      · exact absurd he (by simp)
      · exact ih st1 (lexIter_good st st1 h hi) he

end parse

namespace parse

/-- The shape of the finalised token list, given the loop invariant: the
non-`Eof` prefix and its counting facts, plus how it ends. -/
theorem finalize_spec (st : LexState) (h : Good st) :
    (∃ pre, finalize st = pre ++ [Token.eof] ∧ Token.eof ∉ pre) ∧
    (finalize st).count Token.indent = (finalize st).count Token.dedent ∧
    (1 < (finalize st).length →
      ∃ pre t, finalize st = pre ++ [t, Token.eof] ∧
        (t = Token.newline ∨ t = Token.dedent)) := by
  obtain ⟨hb, hn, hee⟩ := h
  have ht1 : ∃ t1, finalize st = t1 ++ List.replicate st.c.toNat Token.dedent ++ [Token.eof] ∧
      Token.eof ∉ t1 ∧
      t1.count Token.indent = st.tokens.count Token.indent ∧
      t1.count Token.dedent = st.tokens.count Token.dedent ∧
      ((t1 = [] ∧ st.tokens = []) ∨ ∃ l', t1 = l' ++ [Token.newline]) := by
    unfold finalize
    by_cases hc : st.tokens ≠ [] ∧ st.tokens.getLast? ≠ some Token.newline
    · refine ⟨st.tokens ++ [Token.newline], by simp [hc], ?_, ?_, ?_,
        Or.inr ⟨st.tokens, rfl⟩⟩
      · simp [hee]
      · simp [List.count_append]
      · simp [List.count_append]
    · rw [not_and_or, not_not, not_not] at hc
      have hif : ¬(st.tokens ≠ [] ∧ st.tokens.getLast? ≠ some Token.newline) := by
        rcases hc with hc | hc
        · simp [hc]
        · simp [hc]
      rcases hc with hc | hc
      · exact ⟨st.tokens, by simp [hif], hee, rfl, rfl, Or.inl ⟨hc, hc⟩⟩
      · obtain ⟨l', hl'⟩ := List.getLast?_eq_some_iff.mp hc
        exact ⟨st.tokens, by simp [hif], hee, rfl, rfl, Or.inr ⟨l', hl'⟩⟩
  obtain ⟨t1, hfin, ht1e, hci, hcd, hshape⟩ := ht1
  refine ⟨?_, ?_, ?_⟩
  · refine ⟨t1 ++ List.replicate st.c.toNat Token.dedent, by rw [hfin], ?_⟩
    simp [List.mem_append, ht1e, List.mem_replicate]
  · rw [hfin]
    simp [List.count_append, List.count_replicate, List.count_singleton']
    have hkc : (st.c.toNat : Int) = st.c := Int.toNat_of_nonneg hn
    simp only [balance] at hb
    omega
  · intro hlen
    rcases hk : st.c.toNat with _ | j
    · rw [hk] at hfin
      simp only [List.replicate_zero, List.append_nil] at hfin
      rcases hshape with ⟨he1, -⟩ | ⟨l', hl'⟩
      · rw [he1] at hfin
        rw [hfin] at hlen
        simp at hlen
      · refine ⟨l', Token.newline, ?_, Or.inl rfl⟩
        rw [hfin, hl']
        simp
    · rw [hk] at hfin
      refine ⟨t1 ++ List.replicate j Token.dedent, Token.dedent, ?_, Or.inr rfl⟩
      rw [hfin, List.replicate_succ']
      simp

end parse

namespace parse

/-- **C5 (counterexample).** On the input `"\n "` (a newline followed by
one space) the lexer terminates normally and produces
`[Indent, Newline, Dedent, Eof]`: the token before the final `Eof` is the
`Dedent` appended by the end-of-input drain, not a `Newline`, so the
claim's "the Eof is immediately preceded by a Newline token" is false. -/
theorem C5_eof_preceded_counterexample :
    ParseInputStream 10 ['\n', ' '] =
      .ok (some [Token.indent, Token.newline, Token.dedent, Token.eof]) ∧
    1 < [Token.indent, Token.newline, Token.dedent, Token.eof].length ∧
    [Token.indent, Token.newline, Token.dedent, Token.eof] =
      [Token.indent, Token.newline] ++ [Token.dedent, Token.eof] ∧
    Token.dedent ≠ Token.newline :=
  ⟨rfl, by decide, rfl, by decide⟩

/-- **C5 (amended).** For every input on which the lexer terminates
normally, the produced token sequence ends with exactly one `Eof`; the
total number of `Indent` tokens equals the total number of `Dedent`
tokens; and when the sequence has more than the `Eof`, the `Eof` is
immediately preceded by a `Newline` or by a `Dedent` (a `Dedent` exactly
when the end-of-input finalisation had indents left to drain). -/
theorem C5_lexer_invariants (fuel : Nat) (input : List Char) (toks : List Token)
    (h : ParseInputStream fuel input = .ok (some toks)) :
    (∃ pre, toks = pre ++ [Token.eof] ∧ Token.eof ∉ pre) ∧
    toks.count Token.indent = toks.count Token.dedent ∧
    (1 < toks.length →
      ∃ pre t, toks = pre ++ [t, Token.eof] ∧
        (t = Token.newline ∨ t = Token.dedent)) := by
  unfold ParseInputStream at h
  simp only at h
  rcases hl : lexLoop fuel
      { tokens := [], c := 0,
        istr := TrimSpaces { data := input, eofbit := false, failbit := false } } with e | o <;>
    rw [hl] at h <;> simp only [Bind.bind, Except.bind] at h
  · exact absurd h (by simp)
  · cases o with
    | none => exact absurd h (by simp)
    | some st =>
      simp only at h
      injection h with h
      injection h with h
      have hst : Good st := lexLoop_good fuel _ st ⟨rfl, le_refl 0, by simp⟩ hl
      rw [← h]
      exact finalize_spec st hst

/-- **C5 (witness).** The amended theorem at the concrete input `"x\n"`,
whose token sequence is `[Id "x", Newline, Eof]`. -/
theorem C5_lexer_invariants_witness :
    (∃ pre, [Token.id "x", Token.newline, Token.eof] = pre ++ [Token.eof] ∧
      Token.eof ∉ pre) ∧
    [Token.id "x", Token.newline, Token.eof].count Token.indent =
      [Token.id "x", Token.newline, Token.eof].count Token.dedent ∧
    (1 < [Token.id "x", Token.newline, Token.eof].length →
      ∃ pre t, [Token.id "x", Token.newline, Token.eof] = pre ++ [t, Token.eof] ∧
        (t = Token.newline ∨ t = Token.dedent)) :=
  C5_lexer_invariants 10 ['x', '\n'] [Token.id "x", Token.newline, Token.eof] rfl

end parse
